import Mathlib

/-!
Verification of the pattern-learning core of the `lean-flutter` journaling
service (`src/main.py`), as a shallow embedding in Lean 4.

Modelling conventions:
* Python `float` constants (0.3, 0.6, …) are modelled as exact rationals
  (`3/10 : ℚ`, …); the code only assigns and compares these literals.
* SQLite tables are modelled as Lean lists of row structures in rowid
  (insertion) order.  `fetchone` on a keyed `SELECT` is `List.find?`;
  a keyed `UPDATE` rewrites every row whose key matches.
* A JSON text column holding a serialized map/list is modelled as an
  `Option` of its parsed value: `none` stands for a malformed payload, on
  which `json.loads` raises.  A raised exception inside a `try:` block is
  modelled with the `Option` monad; the enclosing `except` clause is the
  final `Option.getD`.
* `datetime` values are passed around already decomposed: the code only
  uses `dt.hour` and the lower-cased weekday name, so an observation
  timestamp is a pair `(hour, weekday)`.  For decay, the code only uses
  the elapsed days between `last_seen` and the query time, so a stored
  `last_seen` column is modelled as `Option ℚ` — `none` when
  `datetime.fromisoformat` would raise, otherwise the elapsed days.
-/

namespace Spec2Proof

/-! ## Python dict / list primitives (insertion-ordered association lists) -/

/-- `d.get(k, 0)` on a Python dict modelled as an association list. -/
def dget (m : List (String × Nat)) (k : String) : Nat :=
  match m.find? (fun kv => kv.1 = k) with
  | some kv => kv.2
  | none => 0

/-- `d[k] = v` on a Python dict: replace the value in place if the key is
present, otherwise append the new key at the end (insertion order). -/
def dset (m : List (String × Nat)) (k : String) (v : Nat) : List (String × Nat) :=
  match m with
  | [] => [(k, v)]
  | kv :: rest => if kv.1 = k then (k, v) :: rest else kv :: dset rest k v

/-- `d[k] = d.get(k, 0) + 1`. -/
def dincr (m : List (String × Nat)) (k : String) : List (String × Nat) :=
  dset m k (dget m k + 1)

/-- Splitter for Python `text.split()` over the character list: `cur`
holds the current word reversed. -/
def wsSplitGo (cur : List Char) : List Char → List (List Char)
  | [] => if cur = [] then [] else [cur.reverse]
  | c :: rest =>
    if c.isWhitespace then
      if cur = [] then wsSplitGo [] rest else cur.reverse :: wsSplitGo [] rest
    else wsSplitGo (c :: cur) rest

/-- Python `text.split()`: split on whitespace runs, no empty fields. -/
def pySplit (s : String) : List String :=
  (wsSplitGo [] s.toList).map (fun cs => String.mk cs)

/-! ## Confidence and decay (src/main.py:388-397, 200-221) -/

/-- `calculate_confidence` (src/main.py:388): confidence score from an
entity's mention count. -/
def calculate_confidence (mention_count : Nat) : ℚ :=
  if mention_count < 5 then 3/10
  else if mention_count < 10 then 6/10
  else if mention_count < 20 then 8/10
  else 9/10

/-- `calculate_time_decay` (src/main.py:200): decay weight from the days
elapsed since `last_seen`.  The argument is the outcome of
`datetime.fromisoformat(last_seen)`: `none` when parsing raises (the
`except` branch returns 0.5), otherwise the elapsed days
`(current_time - last_seen).total_seconds() / (24*3600)`. -/
def calculate_time_decay (days_ago : Option ℚ) : ℚ :=
  match days_ago with
  | some d =>
    if d ≤ 7 then 1
    else if d ≤ 30 then 8/10
    else if d ≤ 90 then 6/10
    else 4/10
  | none => 5/10

/-! ## Entity patterns (table `entity_patterns`, src/main.py:399-469)

Columns `entity_type` and `first_seen` are never read or written by the
modelled code paths and are omitted.  `last_seen` is written as the current
time on every update (so, elapsed days 0 at that instant). -/

structure EntityRow where
  entity : String
  mention_count : Nat
  theme_correlations : Option (List (String × Nat))
  emotion_correlations : Option (List (String × Nat))
  urgency_correlations : Option (List (String × Nat))
  time_patterns : Option (List (String × Nat))
  confidence_score : ℚ
  /-- days since `last_seen` as seen from the (fixed) query time; `none`
  models an unparseable stored timestamp. -/
  last_seen : Option ℚ
deriving DecidableEq

/-- `SELECT * FROM entity_patterns WHERE entity = ?` + `fetchone`. -/
def findEntity (t : List EntityRow) (e : String) : Option EntityRow :=
  t.find? (fun r => r.entity = e)

/-- `UPDATE entity_patterns SET … WHERE entity = ?`: rewrite every row
whose key matches (the key is a PRIMARY KEY, so at most one in practice). -/
def setEntityRow (t : List EntityRow) (e : String) (row : EntityRow) : List EntityRow :=
  t.map (fun r => if r.entity = e then row else r)

/-- The row written by the update branch of `update_entity_patterns`
(src/main.py:419-448), given the parsed correlation payloads of the
fetched row.  `datetime('now','localtime')` written to `last_seen` is
elapsed-days `0`. -/
def bumpedEntityRow (person : String) (oldCount : Nat) (themes : List String)
    (emotion urgency : String) (hour : Nat) (weekday : String)
    (th em ur tp : List (String × Nat)) : EntityRow :=
  { entity := person, mention_count := oldCount + 1,
    theme_correlations := some (themes.foldl (fun m x => dincr m x) th),
    emotion_correlations := some (dincr em emotion),
    urgency_correlations := some (dincr ur urgency),
    time_patterns := some (dincr (dincr tp (toString hour)) weekday),
    confidence_score := calculate_confidence (oldCount + 1), last_seen := some 0 }

/-- The row inserted by the create branch of `update_entity_patterns`
(src/main.py:449-463).  `{theme: 1 for theme in themes}` lets a later
duplicate overwrite. -/
def createdEntityRow (person : String) (themes : List String)
    (emotion urgency : String) (hour : Nat) (weekday : String) : EntityRow :=
  { entity := person, mention_count := 1,
    theme_correlations := some (themes.foldl (fun m x => dset m x 1) []),
    emotion_correlations := some [(emotion, 1)],
    urgency_correlations := some [(urgency, 1)],
    time_patterns := some (dset (dset [] (toString hour) 1) weekday 1),
    confidence_score := calculate_confidence 1, last_seen := some 0 }

/-- One iteration of the `for person in people` loop of
`update_entity_patterns` (src/main.py:413-463).  `none` models an
exception (a malformed correlation payload on the fetched row), which
aborts the whole call. -/
def processPerson (themes : List String) (emotion urgency : String)
    (hour : Nat) (weekday : String) (t : List EntityRow) (person : String) :
    Option (List EntityRow) :=
  match findEntity t person with
  | some existing => do
    let th ← existing.theme_correlations
    let em ← existing.emotion_correlations
    let ur ← existing.urgency_correlations
    let tp ← existing.time_patterns
    pure (setEntityRow t person
      (bumpedEntityRow person existing.mention_count themes emotion urgency hour weekday th em ur tp))
  | none =>
    pure (t ++ [createdEntityRow person themes emotion urgency hour weekday])

/-- `update_entity_patterns` (src/main.py:399): fold the person loop; any
exception (malformed stored payload) reaches the `except` at line 468
before `conn.commit()`, so the table is left unchanged.  The timestamp
argument `created_at` is taken already parsed as `(hour, weekday)`;
claims about this function concern parseable timestamps. -/
def update_entity_patterns (people themes : List String) (emotion urgency : String)
    (hour : Nat) (weekday : String) (t : List EntityRow) : List EntityRow :=
  if people = [] then t
  else
    match people.foldlM (fun acc p => processPerson themes emotion urgency hour weekday acc p) t with
    | some t' => t'
    | none => t

/-- One recorded observation fed into `update_entity_patterns`
(bundle fields plus parsed timestamp). -/
structure EObs where
  people : List String
  themes : List String
  emotion : String
  urgency : String
  hour : Nat
  weekday : String

/-- Apply a sequence of `update_entity_patterns` calls. -/
def applyEObsList (obs : List EObs) (t : List EntityRow) : List EntityRow :=
  obs.foldl (fun acc o =>
    update_entity_patterns o.people o.themes o.emotion o.urgency o.hour o.weekday acc) t

/-- All stored correlation payloads of the table parse (what every state
written purely by this module satisfies). -/
def WFE (t : List EntityRow) : Prop :=
  ∀ r ∈ t, r.theme_correlations.isSome ∧ r.emotion_correlations.isSome ∧
    r.urgency_correlations.isSome ∧ r.time_patterns.isSome

instance (t : List EntityRow) : Decidable (WFE t) := by
  unfold WFE; infer_instance

/-! ## Temporal patterns (table `temporal_patterns`, src/main.py:471-544) -/

structure TemporalRow where
  time_block : String
  weekday : String
  common_themes : Option (List String)
  common_emotions : Option (List String)
  sample_count : Nat
  confidence : ℚ
deriving DecidableEq

/-- `SELECT * FROM temporal_patterns WHERE time_block = ? AND weekday = ?`
+ `fetchone`. -/
def findBucket (t : List TemporalRow) (key : String × String) : Option TemporalRow :=
  t.find? (fun r => r.time_block = key.1 ∧ r.weekday = key.2)

/-- Keyed `UPDATE` on `temporal_patterns`: rewrite every row whose key
matches (the key pair is UNIQUE, so at most one in practice). -/
def setBucket (t : List TemporalRow) (key : String × String) (row : TemporalRow) :
    List TemporalRow :=
  t.map (fun r => if r.time_block = key.1 ∧ r.weekday = key.2 then row else r)

/-- Time-block classification shared by `update_temporal_patterns`
(src/main.py:483-490) and `get_relevant_patterns` (src/main.py:287-294). -/
def timeBlockOfHour (hour : Nat) : String :=
  if 5 ≤ hour ∧ hour < 12 then "morning"
  else if 12 ≤ hour ∧ hour < 17 then "afternoon"
  else if 17 ≤ hour ∧ hour < 22 then "evening"
  else "night"

/-- `'weekend' if weekday in ['saturday','sunday'] else 'weekday'`. -/
def dayTypeOf (weekday : String) : String :=
  if weekday = "saturday" ∨ weekday = "sunday" then "weekend" else "weekday"

/-- The sample-count step function written inline at src/main.py:518-525. -/
def temporalConfidence (sample_count : Nat) : ℚ :=
  if sample_count < 10 then 4/10
  else if sample_count < 20 then 6/10
  else if sample_count < 50 then 8/10
  else 9/10

/-- Python `if x not in l: l.append(x)` folded over a list. -/
def appendAbsent (base add : List String) : List String :=
  add.foldl (fun acc x => if x ∈ acc then acc else acc ++ [x]) base

/-- The row written by the update branch of `update_temporal_patterns`
(src/main.py:505-532), given the parsed theme/emotion lists of the
fetched row. -/
def bumpedBucketRow (key : String × String) (oldCount : Nat)
    (themes : List String) (emotion : String) (cts ces : List String) : TemporalRow :=
  { time_block := key.1, weekday := key.2,
    common_themes := some (appendAbsent cts themes),
    common_emotions := some (if emotion ∈ ces then ces else ces ++ [emotion]),
    sample_count := oldCount + 1, confidence := temporalConfidence (oldCount + 1) }

/-- The row of `INSERT … VALUES (block, day, json.dumps(themes),
json.dumps([emotion]), 1, 0.05)` (src/main.py:533-538): the incoming
themes list is stored verbatim. -/
def createdBucketRow (key : String × String) (themes : List String)
    (emotion : String) : TemporalRow :=
  { time_block := key.1, weekday := key.2,
    common_themes := some themes, common_emotions := some [emotion],
    sample_count := 1, confidence := 5/100 }

/-- One iteration of the `for block, day in patterns_to_update` loop of
`update_temporal_patterns` (src/main.py:499-538).  `none` models a
`json.loads` exception on the fetched row, which aborts the whole call. -/
def updateBucket (themes : List String) (emotion : String)
    (t : List TemporalRow) (key : String × String) : Option (List TemporalRow) :=
  match findBucket t key with
  | some existing => do
    let cts ← existing.common_themes
    let ces ← existing.common_emotions
    pure (setBucket t key (bumpedBucketRow key existing.sample_count themes emotion cts ces))
  | none =>
    pure (t ++ [createdBucketRow key themes emotion])

/-- The three keys touched by one observation (src/main.py:493-497). -/
def affectedKeys (hour : Nat) (weekday : String) : List (String × String) :=
  [(timeBlockOfHour hour, weekday), (timeBlockOfHour hour, "all"),
   ("all", dayTypeOf weekday)]

/-- `update_temporal_patterns` (src/main.py:471): fold the bucket loop
over the three derived keys; an exception reaches the `except` at line 543
before `conn.commit()`, so the table is left unchanged.  `created_at` is
taken already parsed as `(hour, weekday)`. -/
def update_temporal_patterns (themes : List String) (emotion : String)
    (hour : Nat) (weekday : String) (t : List TemporalRow) : List TemporalRow :=
  match (affectedKeys hour weekday).foldlM (fun acc k => updateBucket themes emotion acc k) t with
  | some t' => t'
  | none => t

/-- One observation fed into `update_temporal_patterns`. -/
structure TObs where
  themes : List String
  emotion : String
  hour : Nat
  weekday : String

/-- Apply a sequence of `update_temporal_patterns` calls. -/
def applyTObsList (obs : List TObs) (t : List TemporalRow) : List TemporalRow :=
  obs.foldl (fun acc o => update_temporal_patterns o.themes o.emotion o.hour o.weekday acc) t

/-- Every parseable themes/emotions list in the table is duplicate-free. -/
def NodupInv (t : List TemporalRow) : Prop :=
  ∀ r ∈ t, (∀ l, r.common_themes = some l → l.Nodup) ∧
    (∀ l, r.common_emotions = some l → l.Nodup)

instance (t : List TemporalRow) : Decidable (NodupInv t) := by
  unfold NodupInv
  refine List.decidableBAll _ t

/-! ## `get_relevant_patterns` (src/main.py:223-358) -/

/-- Python `s.strip(chars)`: drop the given characters from both ends. -/
def pyStrip (chars : List Char) (s : String) : String :=
  String.mk ((((s.toList.dropWhile (· ∈ chars)).reverse.dropWhile (· ∈ chars)).reverse))

/-- src/main.py:239-240: words of the entry text that start with an upper
case letter and have length > 1, stripped of `.,!?;:` at both ends. -/
def capitalizedWords (text : String) : List String :=
  ((pySplit text).filter (fun w => w ≠ "" ∧ w.toList.headI.isUpper ∧ 1 < w.length)).map
    (pyStrip ['.', ',', '!', '?', ';', ':'])

/-- Stable insertion sort on descending `mention_count` — a deterministic
refinement of `ORDER BY mention_count DESC` (SQLite leaves the relative
order of equal keys unspecified). -/
def insertDesc (r : EntityRow) : List EntityRow → List EntityRow
  | [] => [r]
  | x :: xs => if r.mention_count ≤ x.mention_count then x :: insertDesc r xs
               else r :: x :: xs

/-- Sort by `mention_count` descending. -/
def sortByMentions : List EntityRow → List EntityRow
  | [] => []
  | x :: xs => insertDesc x (sortByMentions xs)

/-- src/main.py:245-251: `WHERE entity IN (capitalized) AND
mention_count >= 5 ORDER BY mention_count DESC LIMIT 5`. -/
def selectEntities (t : List EntityRow) (caps : List String) : List EntityRow :=
  (sortByMentions (t.filter (fun r => r.entity ∈ caps ∧ 5 ≤ r.mention_count))).take 5

/-- The Stage-5 decay filter, src/main.py:256-258: keep an entity when
`confidence_score * decay_weight > 0.5`. -/
def decayKeep (r : EntityRow) : Bool :=
  r.confidence_score * calculate_time_decay r.last_seen > 5/10

/-- src/main.py:253-261: decay-filter the selected entities, keep the top 3. -/
def keptEntities (t : List EntityRow) (caps : List String) : List EntityRow :=
  ((selectEntities t caps).filter decayKeep).take 3

/-- Python `max(items, key=...)` over dict items: first pair with maximal
count, in insertion order. -/
def maxByCount (m : List (String × Nat)) : Option (String × Nat) :=
  m.foldl (fun acc p =>
    match acc with
    | none => some p
    | some q => if q.2 < p.2 then some p else acc) none

/-- src/main.py:272-278: percentage of a correlation count against the
mention count.  `int((v/total)*100)` is modelled as exact floor division;
the Python float quotient can differ by one in rare cases, none of which
the claims rely on. -/
def pct (v total : Nat) : Nat := v * 100 / total

/-- src/main.py:263-280: the per-entity context fragment, given the parsed
correlation maps. -/
def entityInfo (r : EntityRow) (themes emotions : List (String × Nat)) : String :=
  let base := r.entity ++ ": " ++ toString r.mention_count ++ " mentions"
  let base := match maxByCount themes with
    | some p => base ++ " [" ++ p.1 ++ " " ++ toString (pct p.2 r.mention_count) ++ "%]"
    | none => base
  match maxByCount emotions with
  | some p => base ++ " [" ++ p.1 ++ " " ++ toString (pct p.2 r.mention_count) ++ "%]"
  | none => base

/-- The per-entity loop of src/main.py:263-280: `json.loads` both
correlation columns (an exception anywhere aborts the whole read). -/
def entityParts (rows : List EntityRow) : Option (List String) :=
  rows.mapM (fun r => do
    let themes ← r.theme_correlations
    let emotions ← r.emotion_correlations
    pure (entityInfo r themes emotions))

/-- src/main.py:300-301: tier-1 `WHERE` clause — the exact
(time_block, weekday) bucket with `sample_count >= 5 AND confidence > 0.4`. -/
def tier1 (tb wd : String) (r : TemporalRow) : Bool :=
  r.time_block = tb ∧ r.weekday = wd ∧ 5 ≤ r.sample_count ∧ (4:ℚ)/10 < r.confidence

/-- src/main.py:306-310: tier-2 `WHERE` clause — the (time_block, "all")
aggregate with `sample_count >= 10 AND confidence > 0.5`. -/
def tier2 (tb : String) (r : TemporalRow) : Bool :=
  r.time_block = tb ∧ r.weekday = "all" ∧ 10 ≤ r.sample_count ∧ (5:ℚ)/10 < r.confidence

/-- src/main.py:312-318: tier-3 `WHERE` clause — the ("all", day-type)
aggregate with `sample_count >= 10 AND confidence > 0.5`. -/
def tier3 (dt : String) (r : TemporalRow) : Bool :=
  r.time_block = "all" ∧ r.weekday = dt ∧ 10 ≤ r.sample_count ∧ (5:ℚ)/10 < r.confidence

/-- Tier-1 row choice: `ORDER BY sample_count DESC LIMIT 1` — the first
row attaining the maximal sample count (a deterministic refinement of
SQLite's unspecified tie order). -/
def maxBySample : List TemporalRow → Option TemporalRow
  | [] => none
  | x :: xs =>
    some (xs.foldl (fun m r => if m.sample_count < r.sample_count then r else m) x)

/-- src/main.py:296-318: the ordered temporal fallback chain. -/
def chooseTemporal (t : List TemporalRow) (tb wd dt : String) : Option TemporalRow :=
  match maxBySample (t.filter (tier1 tb wd)) with
  | some r => some r
  | none =>
    match t.find? (tier2 tb) with
    | some r => some r
    | none => t.find? (tier3 dt)

/-- Python `'morning'.title()` on our single lower-case words: upper-case
the first character. -/
def titleOne (s : String) : String :=
  match s.toList with
  | [] => ""
  | c :: rest => String.mk (c.toUpper :: rest)

/-- src/main.py:320-343: the temporal context sentence, given the parsed
theme/emotion lists of the chosen bucket and the query's weekday/block. -/
def temporalInfo (row : TemporalRow) (weekday tb : String)
    (themes emotions : List String) : String :=
  let head :=
    if row.weekday ≠ "all" ∧ row.weekday ≠ "weekday" ∧ row.weekday ≠ "weekend" then
      titleOne weekday ++ " " ++ tb ++ "s: usually "
    else if row.weekday = "weekday" ∨ row.weekday = "weekend" then
      titleOne row.weekday ++ "s: typically "
    else
      titleOne tb ++ "s: often "
  let theme_str := String.intercalate ", " (themes.take 2)
  let emotion_str := String.intercalate ", " (emotions.take 2)
  let head :=
    if theme_str ≠ "" ∧ emotion_str ≠ "" then head ++ theme_str ++ " (" ++ emotion_str ++ ")"
    else if theme_str ≠ "" then head ++ theme_str
    else if emotion_str ≠ "" then head ++ emotion_str
    else head
  head ++ " [" ++ toString row.sample_count ++ " times]"

/-- src/main.py:347-353: join the parts and truncate to 200
whitespace-delimited words. -/
def truncateWords (n : Nat) (s : String) : String :=
  let ws := pySplit s
  if n < ws.length then String.intercalate " " (ws.take n) ++ "..." else s

/-- `get_relevant_patterns` (src/main.py:223): the whole read.  The query
time enters as `(hour, weekday)`; each entity row's decay input is its
`last_seen` field (elapsed days, or `none` for unparseable).  The
function-wide `try/except` (src/main.py:232,356-358) is the final
`Option.getD ""`: any `json.loads` exception yields `""`. -/
def get_relevant_patterns (etable : List EntityRow) (ttable : List TemporalRow)
    (entry_text : String) (hour : Nat) (weekday : String) : String :=
  let go : Option String := do
    let caps := capitalizedWords entry_text
    let eparts ← entityParts (keptEntities etable caps)
    let tb := timeBlockOfHour hour
    let dt := dayTypeOf weekday
    let tparts ←
      match chooseTemporal ttable tb weekday dt with
      | none => pure ([] : List String)
      | some row => do
        let themes ← row.common_themes
        let emotions ← row.common_emotions
        pure [temporalInfo row weekday tb themes emotions]
    let parts := eparts ++ tparts
    if parts = [] then pure ""
    else pure (truncateWords 200 (String.intercalate " | " parts))
  go.getD ""

/-! ## Tag validation in `get_llm_analysis` (src/main.py:925-999) -/

/-- Python `needle in hay` on strings (substring containment). -/
def pyIn (needle hay : String) : Bool :=
  (hay.toList.tails).any (fun t => needle.toList.isPrefixOf t)

/-- src/main.py:926: `[word[1:] for word in text.split() if
word.startswith('#') and len(word) > 1]`. -/
def extractHashtagWords (text : String) : List String :=
  (pySplit text).filterMap (fun w =>
    match w.toList with
    | '#' :: rest => if rest = [] then none else some (String.mk rest)
    | _ => none)

/-- src/main.py:995: keep a proposed tag when it is an extracted hashtag
word or `"#" + tag` occurs somewhere in the text. -/
def validLlmTags (text : String) (llm_tags : List String) : List String :=
  llm_tags.filter (fun tag => tag ∈ extractHashtagWords text ∨ pyIn ("#" ++ tag) text)

/-- src/main.py:996-999: validated remote tags capped at 3, else the raw
hashtag extraction capped at 3. -/
def finalTags (text : String) (llm_tags : List String) : List String :=
  if validLlmTags text llm_tags ≠ [] then (validLlmTags text llm_tags).take 3
  else (extractHashtagWords text).take 3

/-! ## Action-extraction fallback in `get_llm_analysis`
(src/main.py:1004-1059)

The five trigger patterns all have the shape
`TRIGGER (.+?)(?:\.|$)` under `re.IGNORECASE`, where TRIGGER is built from
case-insensitive literals, `\s+` and `\s*`.  The mini matcher below
implements exactly this fragment with Python `re` semantics: leftmost
match start, backtracking priority at a fixed start (alternation tries the
left branch first, `\s+`/`\s*` are greedy), lazy `(.+?)` stopping at the
first position where `\.` or `$` matches (`.` does not cross a newline;
`$` holds at the end of the text or before a trailing newline). -/

/-- Trigger-regex fragment: case-insensitive literal, `\s+`, `\s*`,
alternation, concatenation. -/
inductive Pat where
  | lit (s : List Char)
  | ws1
  | ws0
  | alt (a b : Pat)
  | cat (a b : Pat)

/-- Case-insensitive literal prefix test. -/
def ciStarts (s cs : List Char) : Bool :=
  (s.map Char.toLower).isPrefixOf (cs.map Char.toLower)

/-- Length of the leading whitespace run. -/
def wsRun (cs : List Char) : Nat := (cs.takeWhile Char.isWhitespace).length

/-- All lengths a pattern can consume from the front of `cs`, in
backtracking priority order. -/
def patLens : Pat → List Char → List Nat
  | .lit s, cs => if ciStarts s cs then [s.length] else []
  | .ws1, cs => ((List.range (wsRun cs)).map (fun i => wsRun cs - i))
  | .ws0, cs => ((List.range (wsRun cs + 1)).map (fun i => wsRun cs - i))
  | .alt a b, cs => patLens a cs ++ patLens b cs
  | .cat a b, cs => (patLens a cs).flatMap (fun la => (patLens b (cs.drop la)).map (la + ·))

/-- The lazy group `(.+?)(?:\.|$)` at a fixed position: the shortest
non-empty newline-free run whose right edge sees `.`, the end of the text,
or a trailing final newline. -/
def clauseEnd (acc : List Char) : List Char → Option (List Char)
  | [] => some acc.reverse
  | c :: rest =>
    if c = '.' then some acc.reverse
    else if c = '\n' ∧ rest = [] then some acc.reverse
    else if c = '\n' then none
    else clauseEnd (c :: acc) rest

/-- Require at least one group character, then scan for the boundary. -/
def clauseFrom : List Char → Option (List Char)
  | [] => none
  | c :: rest => if c = '\n' then none else clauseEnd [c] rest

/-- Try the full pattern at one start position: trigger lengths in
priority order, then the lazy clause after the consumed trigger. -/
def tryHere (trig : Pat) (cs : List Char) : Option (List Char) :=
  (patLens trig cs).foldr (fun l acc =>
    match clauseFrom (cs.drop l) with
    | some g => some g
    | none => acc) none

/-- `re.search`: the first start position (left to right) where the
pattern matches, returning the captured clause. -/
def searchClause (trig : Pat) : List Char → Option (List Char)
  | [] => tryHere trig []
  | cs@(_ :: rest) =>
    match tryHere trig cs with
    | some g => some g
    | none => searchClause trig rest

/-- Python `s.strip()` on a char list. -/
def stripWs (cs : List Char) : List Char :=
  (cs.dropWhile Char.isWhitespace).reverse.dropWhile Char.isWhitespace |>.reverse

/-- `match.group(1).strip().rstrip('#').strip()` as one cleanup step. -/
def cleanAction (cs : List Char) : String :=
  String.mk (stripWs ((stripWs cs).reverse.dropWhile (· = '#') |>.reverse))

/-- Lower-cased text, for the `in text_lower` guards. -/
def lowerStr (s : String) : String := String.mk (s.toList.map Char.toLower)

/-- Splitter for Python `s.split(sep)` with a non-empty literal separator;
`fuel` bounds the recursion by the input length. -/
def splitOnGo (sep : List Char) : Nat → List Char → List Char → List (List Char)
  | 0, cur, cs => [cur.reverse ++ cs]
  | _ + 1, cur, [] => [cur.reverse]
  | fuel + 1, cur, c :: rest =>
    if sep.isPrefixOf (c :: rest) then
      cur.reverse :: splitOnGo sep fuel [] ((c :: rest).drop sep.length)
    else
      splitOnGo sep fuel (c :: cur) rest

/-- Python `s.split(sep)` for a non-empty separator (non-overlapping,
left to right). -/
def pySplitOn (sep : String) (s : String) : List String :=
  (splitOnGo sep.toList s.toList.length [] s.toList).map (fun cs => String.mk cs)

/-- Append an extracted action when it is non-empty, longer than 3
characters and (for the patterns that check) not already present. -/
def addAction (acts : List String) (g : Option (List Char)) (checkDup : Bool) :
    List String :=
  match g with
  | none => acts
  | some raw =>
    let a := cleanAction raw
    if a ≠ "" ∧ 3 < a.length ∧ (checkDup → a ∉ acts) then acts ++ [a] else acts

/-- Trigger of `(?:need|needs)\s+to\s+` (src/main.py:1012). -/
def needTrig : Pat :=
  .cat (.alt (.lit "need".toList) (.lit "needs".toList)) (.cat .ws1 (.cat (.lit "to".toList) .ws1))

/-- Trigger of `must\s+` (src/main.py:1020). -/
def mustTrig : Pat := .cat (.lit "must".toList) .ws1

/-- Trigger of `(?:have|has)\s+to\s+` (src/main.py:1028). -/
def haveTrig : Pat :=
  .cat (.alt (.lit "have".toList) (.lit "has".toList)) (.cat .ws1 (.cat (.lit "to".toList) .ws1))

/-- Trigger of `todo:\s*` (src/main.py:1037). -/
def todoTrig : Pat := .cat (.lit "todo:".toList) .ws0

/-- Trigger of `(?:should|ought\s+to)\s+` (src/main.py:1052). -/
def shouldTrig : Pat :=
  .cat (.alt (.lit "should".toList) (.cat (.lit "ought".toList) (.cat .ws1 (.lit "to".toList)))) .ws1

/-- The `todo:` block (src/main.py:1035-1048): the extraction may be split
on literal `" and "` into several actions. -/
def todoActions (acts : List String) (text : String) : List String :=
  if pyIn "todo:" (lowerStr text) ∨ pyIn "todo " (lowerStr text) then
    match searchClause todoTrig text.toList with
    | none => acts
    | some raw =>
      let action_text := cleanAction raw
      if pyIn " and " action_text then
        (pySplitOn " and " action_text).foldl (fun acc part =>
          let p := String.mk (stripWs part.toList)
          if p ≠ "" ∧ 3 < p.length ∧ p ∉ acc then acc ++ [p] else acc) acts
      else
        if action_text ≠ "" ∧ 3 < action_text.length ∧ action_text ∉ acts then
          acts ++ [action_text]
        else acts
  else acts

/-- `list(dict.fromkeys(l))`: de-duplicate keeping first occurrences. -/
def dedupFirst (l : List String) : List String :=
  l.foldl (fun acc a => if a ∈ acc then acc else acc ++ [a]) []

/-- Actions after Pattern 1 ("need/needs to", src/main.py:1011-1016). -/
def needActs (text : String) : List String :=
  if pyIn "need to " (lowerStr text) ∨ pyIn "needs to " (lowerStr text) then
    addAction [] (searchClause needTrig text.toList) false
  else []

/-- Actions after Pattern 2 ("must", src/main.py:1019-1024). -/
def mustActs (text : String) : List String :=
  if pyIn "must " (lowerStr text) then
    addAction (needActs text) (searchClause mustTrig text.toList) true
  else needActs text

/-- Actions after Pattern 3 ("have/has to", src/main.py:1027-1032). -/
def haveActs (text : String) : List String :=
  if pyIn "have to " (lowerStr text) ∨ pyIn "has to " (lowerStr text) then
    addAction (mustActs text) (searchClause haveTrig text.toList) true
  else mustActs text

/-- Actions after Pattern 4 ("todo:", src/main.py:1035-1048). -/
def todoActs (text : String) : List String :=
  todoActions (haveActs text) text

/-- Actions after Pattern 5 ("should/ought to", src/main.py:1051-1056). -/
def shouldActs (text : String) : List String :=
  if pyIn "should " (lowerStr text) ∨ pyIn "ought to " (lowerStr text) then
    addAction (todoActs text) (searchClause shouldTrig text.toList) true
  else todoActs text

/-- The whole manual action-extraction fallback (src/main.py:1004-1059),
run when the remote list is empty: the five guarded patterns in order,
then `list(dict.fromkeys(actions[:5]))`. -/
def fallbackActions (text : String) : List String :=
  dedupFirst ((shouldActs text).take 5)

/-- src/main.py:1002-1005: the remote action list is used when non-empty,
otherwise the manual fallback runs. -/
def actionsResult (remote : List String) (text : String) : List String :=
  if remote = [] then fallbackActions text else remote

/-! ## Helper lemmas: the `entity_patterns` table -/

theorem findEntity_append (t₁ t₂ : List EntityRow) (e : String) :
    findEntity (t₁ ++ t₂) e = (findEntity t₁ e).or (findEntity t₂ e) := by
  simp [findEntity, List.find?_append]

theorem findEntity_set_same {t : List EntityRow} {e : String} {row : EntityRow}
    (hrow : row.entity = e) (h : (findEntity t e).isSome) :
    findEntity (setEntityRow t e row) e = some row := by
  induction t with
  | nil => simp [findEntity] at h
  | cons x xs ih =>
    by_cases hx : x.entity = e
    · simp [findEntity, setEntityRow, List.find?, hx, hrow]
    · have h' : (findEntity xs e).isSome := by
        simpa [findEntity, List.find?, hx] using h
      simpa [findEntity, setEntityRow, List.find?, hx] using ih h'

theorem findEntity_set_other {t : List EntityRow} {e e' : String} {row : EntityRow}
    (hne : e' ≠ e) (hrow : row.entity = e) :
    findEntity (setEntityRow t e row) e' = findEntity t e' := by
  induction t with
  | nil => rfl
  | cons x xs ih =>
    simp only [findEntity, setEntityRow, List.map_cons] at ih ⊢
    by_cases hx : x.entity = e
    · have h₁ : ¬ row.entity = e' := fun h => hne (h.symm.trans hrow)
      have h₂ : ¬ x.entity = e' := fun h => hne (h.symm.trans hx)
      rw [if_pos hx, List.find?_cons_of_neg _ (by simpa using h₁),
        List.find?_cons_of_neg _ (by simpa using h₂)]
      exact ih
    · rw [if_neg hx]
      by_cases hx' : x.entity = e'
      · rw [List.find?_cons_of_pos _ (by simpa using hx'),
          List.find?_cons_of_pos _ (by simpa using hx')]
      · rw [List.find?_cons_of_neg _ (by simpa using hx'),
          List.find?_cons_of_neg _ (by simpa using hx')]
        exact ih

theorem WFE_append {t : List EntityRow} {row : EntityRow} (h : WFE t)
    (hr : row.theme_correlations.isSome ∧ row.emotion_correlations.isSome ∧
      row.urgency_correlations.isSome ∧ row.time_patterns.isSome) :
    WFE (t ++ [row]) := by
  intro r hmem
  rcases List.mem_append.mp hmem with hmem | hmem
  · exact h r hmem
  · simp only [List.mem_singleton] at hmem
    exact hmem ▸ hr

theorem WFE_set {t : List EntityRow} {e : String} {row : EntityRow} (h : WFE t)
    (hr : row.theme_correlations.isSome ∧ row.emotion_correlations.isSome ∧
      row.urgency_correlations.isSome ∧ row.time_patterns.isSome) :
    WFE (setEntityRow t e row) := by
  intro r hmem
  rcases List.mem_map.mp hmem with ⟨a, ha, hfa⟩
  by_cases hae : a.entity = e
  · simp only [hae, if_pos rfl] at hfa
    exact hfa ▸ hr
  · simp only [if_neg hae] at hfa
    exact hfa ▸ h a ha

/-- Tracking state for one entity `e`: after `k` recorded mentions its row
either does not exist (`k = 0`) or carries mention count `k` and the
step-function confidence of `k`. -/
def EntState (t : List EntityRow) (e : String) (k : Nat) : Prop :=
  (k = 0 ∧ findEntity t e = none) ∨
  (1 ≤ k ∧ ∃ r, findEntity t e = some r ∧ r.mention_count = k ∧
    r.confidence_score = calculate_confidence k)

theorem processPerson_step {themes : List String} {emotion urgency : String}
    {hour : Nat} {weekday : String} {t : List EntityRow} {e p : String} {k : Nat}
    (hwf : WFE t) (hst : EntState t e k) :
    ∃ t', processPerson themes emotion urgency hour weekday t p = some t' ∧
      WFE t' ∧ EntState t' e (k + if p = e then 1 else 0) := by
  cases hfind : findEntity t p with
  | none =>
    refine ⟨t ++ [createdEntityRow p themes emotion urgency hour weekday], ?_, ?_, ?_⟩
    · simp [processPerson, hfind]
    · exact WFE_append hwf (by simp [createdEntityRow])
    · by_cases hpe : p = e
      · subst hpe
        simp only [eq_self_iff_true, if_true]
        rcases hst with ⟨hk, -⟩ | ⟨-, r, hr, -⟩
        · refine Or.inr ⟨by omega, createdEntityRow p themes emotion urgency hour weekday, ?_, ?_, ?_⟩
          · rw [findEntity_append, hfind]
            simp [findEntity, List.find?, createdEntityRow]
          · simp [createdEntityRow, hk]
          · simp [createdEntityRow, hk]
        · rw [hfind] at hr; exact absurd hr (by simp)
      · have hkeep : findEntity (t ++ [createdEntityRow p themes emotion urgency hour weekday]) e
            = findEntity t e := by
          rw [findEntity_append]
          cases hfe : findEntity t e with
          | some r => rfl
          | none =>
            simp [Option.or, findEntity, List.find?, createdEntityRow, hpe]
        simp only [if_neg hpe, Nat.add_zero]
        rcases hst with ⟨hk, hnone⟩ | ⟨hk, r, hr, h₁, h₂⟩
        · exact Or.inl ⟨hk, by rw [hkeep, hnone]⟩
        · exact Or.inr ⟨hk, r, by rw [hkeep, hr], h₁, h₂⟩
  | some ex =>
    have hmem := List.mem_of_find?_eq_some hfind
    obtain ⟨hth, hem, hur, htp⟩ := hwf ex hmem
    obtain ⟨th, hth'⟩ := Option.isSome_iff_exists.mp hth
    obtain ⟨em, hem'⟩ := Option.isSome_iff_exists.mp hem
    obtain ⟨ur, hur'⟩ := Option.isSome_iff_exists.mp hur
    obtain ⟨tp, htp'⟩ := Option.isSome_iff_exists.mp htp
    set row := bumpedEntityRow p ex.mention_count themes emotion urgency hour weekday th em ur tp with hrowdef
    have hrowe : row.entity = p := by simp [hrowdef, bumpedEntityRow]
    refine ⟨setEntityRow t p row, ?_, ?_, ?_⟩
    · simp [processPerson, hfind, hth', hem', hur', htp']
    · exact WFE_set hwf (by simp [hrowdef, bumpedEntityRow])
    · by_cases hpe : p = e
      · subst hpe
        simp only [eq_self_iff_true, if_true]
        rcases hst with ⟨-, hnone⟩ | ⟨hk, r, hr, h₁, h₂⟩
        · rw [hfind] at hnone; exact absurd hnone (by simp)
        · have hre : r = ex := by rw [hfind] at hr; exact (Option.some_inj.mp hr).symm
          subst hre
          refine Or.inr ⟨by omega, row, ?_, ?_, ?_⟩
          · exact findEntity_set_same hrowe (by simp [hfind])
          · simp [hrowdef, bumpedEntityRow, h₁]
          · simp [hrowdef, bumpedEntityRow, h₁]
      · have hkeep := findEntity_set_other (t := t) (fun h => hpe h.symm) hrowe
        simp only [if_neg hpe, Nat.add_zero]
        rcases hst with ⟨hk, hnone⟩ | ⟨hk, r, hr, h₁, h₂⟩
        · exact Or.inl ⟨hk, by rw [hkeep, hnone]⟩
        · exact Or.inr ⟨hk, r, by rw [hkeep, hr], h₁, h₂⟩

theorem foldPeople_step {themes : List String} {emotion urgency : String}
    {hour : Nat} {weekday : String} {e : String} :
    ∀ (people : List String) (t : List EntityRow) (k : Nat), WFE t → EntState t e k →
    ∃ t', people.foldlM (fun acc q => processPerson themes emotion urgency hour weekday acc q) t
        = some t' ∧ WFE t' ∧ EntState t' e (k + people.count e) := by
  intro people
  induction people with
  | nil =>
    intro t k hwf hst
    exact ⟨t, by simp [List.foldlM_nil], hwf, by simpa using hst⟩
  | cons p ps ih =>
    intro t k hwf hst
    obtain ⟨t₁, h₁, hwf₁, hst₁⟩ := processPerson_step (p := p) hwf hst
    obtain ⟨t₂, h₂, hwf₂, hst₂⟩ := ih t₁ _ hwf₁ hst₁
    refine ⟨t₂, ?_, hwf₂, ?_⟩
    · rw [List.foldlM_cons, h₁]
      simpa using h₂
    · have harith : k + (if p = e then 1 else 0) + ps.count e = k + (p :: ps).count e := by
        rw [List.count_cons]
        by_cases hpe : p = e
        · rw [if_pos hpe, if_pos (by simpa using hpe)]
          omega
        · rw [if_neg hpe, if_neg (by simpa using hpe)]
          omega
      rwa [harith] at hst₂

theorem update_entity_patterns_step (people themes : List String)
    (emotion urgency : String) (hour : Nat) (weekday : String)
    {t : List EntityRow} {e : String} {k : Nat} (hwf : WFE t) (hst : EntState t e k) :
    WFE (update_entity_patterns people themes emotion urgency hour weekday t) ∧
      EntState (update_entity_patterns people themes emotion urgency hour weekday t) e
        (k + people.count e) := by
  by_cases hp : people = []
  · subst hp
    simp only [update_entity_patterns, if_pos rfl]
    exact ⟨hwf, by simpa using hst⟩
  · obtain ⟨t', h', hwf', hst'⟩ := foldPeople_step people t k hwf hst
    unfold update_entity_patterns
    rw [if_neg hp, h']
    exact ⟨hwf', hst'⟩

theorem applyEObsList_step {e : String} :
    ∀ (obs : List EObs) (t : List EntityRow) (k : Nat), WFE t → EntState t e k →
    WFE (applyEObsList obs t) ∧
      EntState (applyEObsList obs t) e (k + (obs.map (fun o => o.people.count e)).sum) := by
  intro obs
  induction obs with
  | nil => intro t k hwf hst; exact ⟨hwf, by simpa using hst⟩
  | cons o os ih =>
    intro t k hwf hst
    obtain ⟨hwf₁, hst₁⟩ := update_entity_patterns_step o.people o.themes
      o.emotion o.urgency o.hour o.weekday hwf hst
    obtain ⟨hwf₂, hst₂⟩ := ih _ _ hwf₁ hst₁
    refine ⟨hwf₂, ?_⟩
    simp only [applyEObsList, List.foldl_cons] at hst₂ ⊢
    rw [List.map_cons, List.sum_cons, ← Nat.add_assoc]
    exact hst₂

/-! ## Claim C1 -/

/-- C1: starting from a well-formed state with no row for entity `e`,
after `N ≥ 1` calls to `update_entity_patterns` whose people list contains
`e` (once — the extraction pipeline de-duplicates people), the stored row
has `mention_count = N` and `confidence_score` given by the step function
`<5 → 0.3, <10 → 0.6, <20 → 0.8, else → 0.9`; in particular the
boundaries N ∈ {4,5,10,20} give {0.3,0.6,0.8,0.9}. -/
theorem entity_count_confidence_after_calls (e : String) (obs : List EObs)
    (t₀ : List EntityRow) (hne : obs ≠ []) (hwf : WFE t₀)
    (h₀ : findEntity t₀ e = none) (hcnt : ∀ o ∈ obs, o.people.count e = 1) :
    ∃ r, findEntity (applyEObsList obs t₀) e = some r ∧
      r.mention_count = obs.length ∧
      r.confidence_score =
        (if obs.length < 5 then 3/10 else if obs.length < 10 then 6/10
         else if obs.length < 20 then 8/10 else (9:ℚ)/10) ∧
      calculate_confidence 4 = 3/10 ∧ calculate_confidence 5 = 6/10 ∧
      calculate_confidence 10 = 8/10 ∧ calculate_confidence 20 = 9/10 := by
  have hsum : (obs.map (fun o => o.people.count e)).sum = obs.length := by
    clear hne
    induction obs with
    | nil => rfl
    | cons o os ih =>
      rw [List.map_cons, List.sum_cons, ih (fun x hx => hcnt x (List.mem_cons_of_mem o hx)),
        hcnt o (List.mem_cons_self o os), List.length_cons]
      omega
  obtain ⟨-, hst⟩ := applyEObsList_step obs t₀ 0 hwf (Or.inl ⟨rfl, h₀⟩)
  rw [Nat.zero_add, hsum] at hst
  rcases hst with ⟨hk, -⟩ | ⟨-, r, hr, h₁, h₂⟩
  · exact absurd (List.length_eq_zero.mp hk) hne
  · refine ⟨r, hr, h₁, ?_, by norm_num [calculate_confidence],
      by norm_num [calculate_confidence], by norm_num [calculate_confidence],
      by norm_num [calculate_confidence]⟩
    rw [h₂]; rfl

/-- Witness for C1 at N = 5 (a boundary): five observations of "Sam" from
the empty table give mention count 5 and confidence 0.6. -/
theorem entity_count_confidence_after_calls_witness :
    ∃ r, findEntity (applyEObsList
        (List.replicate 5 ⟨["Sam"], ["work"], "calm", "none", 9, "monday"⟩) []) "Sam" = some r ∧
      r.mention_count = (List.replicate 5
        (⟨["Sam"], ["work"], "calm", "none", 9, "monday"⟩ : EObs)).length ∧
      r.confidence_score =
        (if (List.replicate 5 (⟨["Sam"], ["work"], "calm", "none", 9, "monday"⟩ : EObs)).length < 5
          then 3/10
         else if (List.replicate 5 (⟨["Sam"], ["work"], "calm", "none", 9, "monday"⟩ : EObs)).length < 10
          then 6/10
         else if (List.replicate 5 (⟨["Sam"], ["work"], "calm", "none", 9, "monday"⟩ : EObs)).length < 20
          then 8/10 else (9:ℚ)/10) ∧
      calculate_confidence 4 = 3/10 ∧ calculate_confidence 5 = 6/10 ∧
      calculate_confidence 10 = 8/10 ∧ calculate_confidence 20 = 9/10 :=
  entity_count_confidence_after_calls "Sam" _ [] (by simp)
    (by intro r hr; simp at hr) rfl
    (fun o ho => by rw [List.eq_of_mem_replicate ho]; decide)

/-! ## Claim C8 -/

/-- C8: from a state with no pattern for "Sam", observations with themes
`["work","personal"]` then `["personal"]` leave its stored
`theme_correlations` equal to `{"work": 1, "personal": 2}`. -/
theorem two_observations_theme_correlations (t₀ : List EntityRow)
    (h₀ : findEntity t₀ "Sam" = none) :
    ∃ r, findEntity (applyEObsList
        [⟨["Sam"], ["work", "personal"], "calm", "none", 9, "monday"⟩,
         ⟨["Sam"], ["personal"], "calm", "none", 9, "monday"⟩] t₀) "Sam" = some r ∧
      r.theme_correlations = some [("work", 1), ("personal", 2)] := by
  set row₁ := createdEntityRow "Sam" ["work", "personal"] "calm" "none" 9 "monday" with hrow₁
  have h₁ : update_entity_patterns ["Sam"] ["work", "personal"] "calm" "none" 9 "monday" t₀
      = t₀ ++ [row₁] := by
    unfold update_entity_patterns
    rw [if_neg (by simp)]
    have hpp : processPerson ["work", "personal"] "calm" "none" 9 "monday" t₀ "Sam"
        = some (t₀ ++ [row₁]) := by
      simp [processPerson, h₀]
    rw [List.foldlM_cons, hpp]
    simp
  have hfind₁ : findEntity (t₀ ++ [row₁]) "Sam" = some row₁ := by
    rw [findEntity_append, h₀]
    simp [Option.or, findEntity, List.find?, hrow₁, createdEntityRow]
  set row₂ := bumpedEntityRow "Sam" 1 ["personal"] "calm" "none" 9 "monday"
    [("work", 1), ("personal", 1)] [("calm", 1)] [("none", 1)]
    (dset (dset [] (toString 9) 1) "monday" 1) with hrow₂
  have h₂ : update_entity_patterns ["Sam"] ["personal"] "calm" "none" 9 "monday" (t₀ ++ [row₁])
      = setEntityRow (t₀ ++ [row₁]) "Sam" row₂ := by
    unfold update_entity_patterns
    rw [if_neg (by simp)]
    have hpp : processPerson ["personal"] "calm" "none" 9 "monday" (t₀ ++ [row₁]) "Sam"
        = some (setEntityRow (t₀ ++ [row₁]) "Sam" row₂) := by
      rw [processPerson.eq_def, hfind₁]
      rfl
    rw [List.foldlM_cons, hpp]
    simp
  refine ⟨row₂, ?_, by decide⟩
  show findEntity (applyEObsList _ t₀) "Sam" = some row₂
  rw [applyEObsList, List.foldl_cons, List.foldl_cons, List.foldl_nil]
  show findEntity (update_entity_patterns ["Sam"] ["personal"] "calm" "none" 9 "monday"
    (update_entity_patterns ["Sam"] ["work", "personal"] "calm" "none" 9 "monday" t₀)) "Sam"
    = some row₂
  rw [h₁, h₂]
  exact findEntity_set_same (by decide) (by rw [hfind₁]; rfl)

/-- Witness for C8 from the empty table. -/
theorem two_observations_theme_correlations_witness :
    ∃ r, findEntity (applyEObsList
        [⟨["Sam"], ["work", "personal"], "calm", "none", 9, "monday"⟩,
         ⟨["Sam"], ["personal"], "calm", "none", 9, "monday"⟩] []) "Sam" = some r ∧
      r.theme_correlations = some [("work", 1), ("personal", 2)] :=
  two_observations_theme_correlations [] rfl

/-! ## Claim C7 -/

/-- C7: the decay weight of a parseable `last_seen` is non-increasing in
the elapsed days and takes exactly the values 1.0 (≤ 7 days),
0.8 (≤ 30 days), 0.6 (≤ 90 days) and 0.4 (> 90 days). -/
theorem decay_monotone_and_values :
    (∀ d₁ d₂ : ℚ, d₁ ≤ d₂ →
      calculate_time_decay (some d₂) ≤ calculate_time_decay (some d₁)) ∧
    (∀ d : ℚ, (d ≤ 7 → calculate_time_decay (some d) = 1) ∧
      (7 < d → d ≤ 30 → calculate_time_decay (some d) = 8/10) ∧
      (30 < d → d ≤ 90 → calculate_time_decay (some d) = 6/10) ∧
      (90 < d → calculate_time_decay (some d) = 4/10)) := by
  constructor
  · intro d₁ d₂ h
    simp only [calculate_time_decay]
    split_ifs <;> norm_num <;> linarith
  · intro d
    simp only [calculate_time_decay]
    refine ⟨?_, ?_, ?_, ?_⟩ <;> intros <;> split_ifs <;> first | rfl | linarith

/-- Witness for C7 at days 3, 10, 50, 100 and one monotone pair. -/
theorem decay_monotone_and_values_witness :
    calculate_time_decay (some 3) = 1 ∧ calculate_time_decay (some 10) = 8/10 ∧
    calculate_time_decay (some 50) = 6/10 ∧ calculate_time_decay (some 100) = 4/10 ∧
    calculate_time_decay (some 100) ≤ calculate_time_decay (some 10) :=
  ⟨(decay_monotone_and_values.2 3).1 (by norm_num),
   (decay_monotone_and_values.2 10).2.1 (by norm_num) (by norm_num),
   (decay_monotone_and_values.2 50).2.2.1 (by norm_num) (by norm_num),
   (decay_monotone_and_values.2 100).2.2.2 (by norm_num),
   decay_monotone_and_values.1 10 100 (by norm_num)⟩

/-! ## Claim C10 -/

/-- Every confidence the code stores is at most 0.9. -/
theorem calculate_confidence_le (n : Nat) : calculate_confidence n ≤ 9/10 := by
  unfold calculate_confidence
  split_ifs <;> norm_num

/-- C10: `calculate_time_decay` is total with values in
{1, 0.8, 0.6, 0.4, 0.5}, returning 0.5 exactly on an unparseable
`last_seen`; a row with unparseable `last_seen` and a code-produced
confidence score has decayed confidence ≤ 0.45 and is dropped by the
`> 0.5` filter of `get_relevant_patterns` (so it never reaches
`keptEntities`). -/
theorem decay_total_and_malformed_excluded :
    (∀ d : Option ℚ, calculate_time_decay d = 1 ∨ calculate_time_decay d = 8/10 ∨
      calculate_time_decay d = 6/10 ∨ calculate_time_decay d = 4/10 ∨
      calculate_time_decay d = 5/10) ∧
    (∀ d : Option ℚ, calculate_time_decay d = 5/10 ↔ d = none) ∧
    (∀ n : Nat, calculate_confidence n * calculate_time_decay none ≤ 45/100) ∧
    (∀ r : EntityRow, r.last_seen = none →
      (∃ n, r.confidence_score = calculate_confidence n) →
      decayKeep r = false ∧ ∀ etable caps, r ∉ keptEntities etable caps) := by
  refine ⟨?_, ?_, ?_, ?_⟩
  · intro d
    match d with
    | none => simp [calculate_time_decay]
    | some x =>
      simp only [calculate_time_decay]
      split_ifs <;> simp
  · intro d
    match d with
    | none => simp [calculate_time_decay]
    | some x =>
      simp only [calculate_time_decay]
      split_ifs <;> norm_num
  · intro n
    have h := calculate_confidence_le n
    have hd : calculate_time_decay none = 5/10 := rfl
    rw [hd]
    have hnn : (0:ℚ) ≤ calculate_confidence n := by
      unfold calculate_confidence; split_ifs <;> norm_num
    nlinarith
  · intro r hls ⟨n, hc⟩
    have hkeep : decayKeep r = false := by
      have h₁ : r.confidence_score * calculate_time_decay r.last_seen ≤ 45/100 := by
        rw [hls, hc]
        have h := calculate_confidence_le n
        have hd : calculate_time_decay none = 5/10 := rfl
        rw [hd]
        have hnn : (0:ℚ) ≤ calculate_confidence n := by
          unfold calculate_confidence; split_ifs <;> norm_num
        nlinarith
      simp only [decayKeep, decide_eq_false_iff_not, not_lt]
      linarith
    refine ⟨hkeep, fun etable caps hmem => ?_⟩
    have := List.mem_filter.mp (List.take_subset 3 _ hmem)
    rw [hkeep] at this
    exact absurd this.2 (by simp)

/-- Witness for C10: a malformed row with confidence 0.9 is excluded. -/
theorem decay_total_and_malformed_excluded_witness :
    decayKeep ⟨"Sam", 25, some [], some [], some [], some [], 9/10, none⟩ = false ∧
    ∀ etable caps,
      (⟨"Sam", 25, some [], some [], some [], some [], 9/10, none⟩ : EntityRow)
        ∉ keptEntities etable caps :=
  decay_total_and_malformed_excluded.2.2.2
    ⟨"Sam", 25, some [], some [], some [], some [], 9/10, none⟩ rfl
    ⟨25, by norm_num [calculate_confidence]⟩

/-! ## Helper lemmas: the `temporal_patterns` table -/

/-- All stored theme/emotion payloads of the table parse. -/
def WFT (t : List TemporalRow) : Prop :=
  ∀ r ∈ t, r.common_themes.isSome ∧ r.common_emotions.isSome

instance (t : List TemporalRow) : Decidable (WFT t) := by
  unfold WFT; infer_instance

theorem findBucket_append (t₁ t₂ : List TemporalRow) (key : String × String) :
    findBucket (t₁ ++ t₂) key = (findBucket t₁ key).or (findBucket t₂ key) := by
  simp [findBucket, List.find?_append]

theorem findBucket_set_same {t : List TemporalRow} {key : String × String}
    {row : TemporalRow} (hrow : row.time_block = key.1 ∧ row.weekday = key.2)
    (h : (findBucket t key).isSome) :
    findBucket (setBucket t key row) key = some row := by
  induction t with
  | nil => simp [findBucket] at h
  | cons x xs ih =>
    by_cases hx : x.time_block = key.1 ∧ x.weekday = key.2
    · simp [findBucket, setBucket, List.find?, hx, hrow]
    · have h' : (findBucket xs key).isSome := by
        simpa [findBucket, List.find?, hx] using h
      simpa [findBucket, setBucket, List.find?, hx] using ih h'

theorem findBucket_set_other {t : List TemporalRow} {key key' : String × String}
    {row : TemporalRow} (hne : key' ≠ key)
    (hrow : row.time_block = key.1 ∧ row.weekday = key.2) :
    findBucket (setBucket t key row) key' = findBucket t key' := by
  have hrowne : ¬ (row.time_block = key'.1 ∧ row.weekday = key'.2) := by
    rintro ⟨h₁, h₂⟩
    have e₁ : key'.1 = key.1 := by rw [← h₁]; exact hrow.1
    have e₂ : key'.2 = key.2 := by rw [← h₂]; exact hrow.2
    exact hne (Prod.ext e₁ e₂)
  induction t with
  | nil => rfl
  | cons x xs ih =>
    simp only [findBucket, setBucket, List.map_cons] at ih ⊢
    by_cases hx : x.time_block = key.1 ∧ x.weekday = key.2
    · have hxne : ¬ (x.time_block = key'.1 ∧ x.weekday = key'.2) := by
        rintro ⟨h₁, h₂⟩
        have e₁ : key'.1 = key.1 := by rw [← h₁]; exact hx.1
        have e₂ : key'.2 = key.2 := by rw [← h₂]; exact hx.2
        exact hne (Prod.ext e₁ e₂)
      rw [if_pos hx, List.find?_cons_of_neg _ (by simpa using hrowne),
        List.find?_cons_of_neg _ (by simpa using hxne)]
      exact ih
    · rw [if_neg hx]
      by_cases hx' : x.time_block = key'.1 ∧ x.weekday = key'.2
      · rw [List.find?_cons_of_pos _ (by simpa using hx'),
          List.find?_cons_of_pos _ (by simpa using hx')]
      · rw [List.find?_cons_of_neg _ (by simpa using hx'),
          List.find?_cons_of_neg _ (by simpa using hx')]
        exact ih

theorem WFT_append {t : List TemporalRow} {row : TemporalRow} (h : WFT t)
    (hr : row.common_themes.isSome ∧ row.common_emotions.isSome) :
    WFT (t ++ [row]) := by
  intro r hmem
  rcases List.mem_append.mp hmem with hmem | hmem
  · exact h r hmem
  · simp only [List.mem_singleton] at hmem
    exact hmem ▸ hr

theorem WFT_set {t : List TemporalRow} {key : String × String} {row : TemporalRow}
    (h : WFT t) (hr : row.common_themes.isSome ∧ row.common_emotions.isSome) :
    WFT (setBucket t key row) := by
  intro r hmem
  rcases List.mem_map.mp hmem with ⟨a, ha, hfa⟩
  by_cases hak : a.time_block = key.1 ∧ a.weekday = key.2
  · simp only [if_pos hak] at hfa
    exact hfa ▸ hr
  · simp only [if_neg hak] at hfa
    exact hfa ▸ h a ha

/-- What one loop iteration of `update_temporal_patterns` does on a
well-formed table: it succeeds, keeps well-formedness, leaves every other
key untouched, creates a (1, 0.05) row for a missing key and bumps an
existing one to the step-function confidence of the incremented count. -/
theorem updateBucket_step (themes : List String) (emotion : String)
    {t : List TemporalRow} (key : String × String) (hwf : WFT t) :
    ∃ t', updateBucket themes emotion t key = some t' ∧ WFT t' ∧
      (∀ key', key' ≠ key → findBucket t' key' = findBucket t key') ∧
      (findBucket t key = none →
        findBucket t' key = some (createdBucketRow key themes emotion)) ∧
      (∀ ex, findBucket t key = some ex → ∃ cts ces,
        ex.common_themes = some cts ∧ ex.common_emotions = some ces ∧
        findBucket t' key = some (bumpedBucketRow key ex.sample_count themes emotion cts ces)) := by
  cases hfind : findBucket t key with
  | none =>
    refine ⟨t ++ [createdBucketRow key themes emotion], by simp [updateBucket, hfind], ?_, ?_, ?_, ?_⟩
    · exact WFT_append hwf (by simp [createdBucketRow])
    · intro key' hne
      rw [findBucket_append]
      cases hfe : findBucket t key' with
      | some r => rfl
      | none =>
        have : ¬ ((createdBucketRow key themes emotion).time_block = key'.1 ∧
            (createdBucketRow key themes emotion).weekday = key'.2) := by
          simp only [createdBucketRow]
          rintro ⟨h₁, h₂⟩
          exact hne (Prod.ext h₁.symm h₂.symm)
        simp [Option.or, findBucket, List.find?, this]
    · intro _
      rw [findBucket_append, hfind]
      simp [Option.or, findBucket, List.find?, createdBucketRow]
    · intro ex hex
      simp at hex
  | some ex =>
    have hmem := List.mem_of_find?_eq_some hfind
    obtain ⟨hth, hem⟩ := hwf ex hmem
    obtain ⟨cts, hth'⟩ := Option.isSome_iff_exists.mp hth
    obtain ⟨ces, hem'⟩ := Option.isSome_iff_exists.mp hem
    set row := bumpedBucketRow key ex.sample_count themes emotion cts ces with hrowdef
    have hrowk : row.time_block = key.1 ∧ row.weekday = key.2 := by
      simp [hrowdef, bumpedBucketRow]
    refine ⟨setBucket t key row, by simp [updateBucket, hfind, hth', hem'], ?_, ?_, ?_, ?_⟩
    · exact WFT_set hwf (by simp [hrowdef, bumpedBucketRow])
    · intro key' hne
      exact findBucket_set_other hne hrowk
    · intro hnone
      simp at hnone
    · intro ex' hex'
      have hexex : ex' = ex := (Option.some_inj.mp hex').symm
      subst hexex
      exact ⟨cts, ces, hth', hem',
        findBucket_set_same hrowk (by simp [hfind])⟩

theorem timeBlockOfHour_ne_all (hour : Nat) : timeBlockOfHour hour ≠ "all" := by
  unfold timeBlockOfHour
  split_ifs <;> decide

theorem dayTypeOf_cases (w : String) :
    dayTypeOf w = "weekday" ∨ dayTypeOf w = "weekend" := by
  unfold dayTypeOf
  split_ifs <;> simp

/-! ## Claim C3 -/

/-- C3 counterexample: one observation on an empty table creates the
(morning, monday) bucket with confidence 0.05, not the step-function value
`temporalConfidence 1 = 0.4` — so 0.05 does persist after an observation
has been applied. -/
theorem fresh_bucket_keeps_005_counterexample :
    findBucket (update_temporal_patterns ["work"] "calm" 9 "monday" [])
        ("morning", "monday")
      = some ⟨"morning", "monday", some ["work"], some ["calm"], 1, 5/100⟩ ∧
    temporalConfidence 1 = 4/10 ∧ ((5:ℚ)/100) ≠ 4/10 :=
  ⟨rfl, rfl, by norm_num⟩

/-- C3 amended: on a well-formed table, each of the three affected buckets
that already existed ends the update with `sample_count` incremented and
`confidence = temporalConfidence` of the new count; a bucket that did not
exist is created with `sample_count = 1` and confidence 0.05 (which thus
persists until a second observation reaches that bucket). -/
theorem temporal_confidence_after_update (themes : List String) (emotion : String)
    (hour : Nat) (weekday : String) (t : List TemporalRow)
    (hwd : weekday ≠ "all") (hwf : WFT t) :
    ∀ key ∈ affectedKeys hour weekday,
      (findBucket t key = none →
        ∃ r, findBucket (update_temporal_patterns themes emotion hour weekday t) key
            = some r ∧ r.sample_count = 1 ∧ r.confidence = 5/100) ∧
      (∀ ex, findBucket t key = some ex →
        ∃ r, findBucket (update_temporal_patterns themes emotion hour weekday t) key
            = some r ∧ r.sample_count = ex.sample_count + 1 ∧
          r.confidence = temporalConfidence (ex.sample_count + 1)) := by
  obtain ⟨t₁, e₁, wf₁, frame₁, create₁, bump₁⟩ :=
    updateBucket_step themes emotion (timeBlockOfHour hour, weekday) hwf
  obtain ⟨t₂, e₂, wf₂, frame₂, create₂, bump₂⟩ :=
    updateBucket_step themes emotion (timeBlockOfHour hour, "all") wf₁
  obtain ⟨t₃, e₃, wf₃, frame₃, create₃, bump₃⟩ :=
    updateBucket_step themes emotion ("all", dayTypeOf weekday) wf₂
  have h₁₂ : ((timeBlockOfHour hour, weekday) : String × String)
      ≠ (timeBlockOfHour hour, "all") := fun h => hwd (congrArg Prod.snd h)
  have h₁₃ : ((timeBlockOfHour hour, weekday) : String × String)
      ≠ ("all", dayTypeOf weekday) :=
    fun h => timeBlockOfHour_ne_all hour (congrArg Prod.fst h)
  have h₂₃ : ((timeBlockOfHour hour, "all") : String × String)
      ≠ ("all", dayTypeOf weekday) :=
    fun h => timeBlockOfHour_ne_all hour (congrArg Prod.fst h)
  have hupd : update_temporal_patterns themes emotion hour weekday t = t₃ := by
    unfold update_temporal_patterns
    simp [affectedKeys, List.foldlM_cons, List.foldlM_nil, e₁, e₂, e₃]
  rw [hupd]
  intro key hkey
  simp only [affectedKeys, List.mem_cons, List.not_mem_nil, or_false] at hkey
  rcases hkey with rfl | rfl | rfl
  · have hkeep : findBucket t₃ (timeBlockOfHour hour, weekday)
        = findBucket t₁ (timeBlockOfHour hour, weekday) := by
      rw [frame₃ _ h₁₃, frame₂ _ h₁₂]
    constructor
    · intro hnone
      exact ⟨createdBucketRow (timeBlockOfHour hour, weekday) themes emotion,
        by rw [hkeep]; exact create₁ hnone, rfl, rfl⟩
    · intro ex hex
      obtain ⟨cts, ces, -, -, hfind⟩ := bump₁ ex hex
      exact ⟨bumpedBucketRow (timeBlockOfHour hour, weekday) ex.sample_count themes emotion cts ces,
        by rw [hkeep]; exact hfind, rfl, rfl⟩
  · have hpre : findBucket t₁ (timeBlockOfHour hour, "all")
        = findBucket t (timeBlockOfHour hour, "all") := frame₁ _ h₁₂.symm
    have hkeep : findBucket t₃ (timeBlockOfHour hour, "all")
        = findBucket t₂ (timeBlockOfHour hour, "all") := frame₃ _ h₂₃
    constructor
    · intro hnone
      exact ⟨createdBucketRow (timeBlockOfHour hour, "all") themes emotion,
        by rw [hkeep]; exact create₂ (hpre.trans hnone), rfl, rfl⟩
    · intro ex hex
      obtain ⟨cts, ces, -, -, hfind⟩ := bump₂ ex (hpre.trans hex)
      exact ⟨bumpedBucketRow (timeBlockOfHour hour, "all") ex.sample_count themes emotion cts ces,
        by rw [hkeep]; exact hfind, rfl, rfl⟩
  · have hpre : findBucket t₂ ("all", dayTypeOf weekday)
        = findBucket t ("all", dayTypeOf weekday) := by
      rw [frame₂ _ h₂₃.symm, frame₁ _ h₁₃.symm]
    constructor
    · intro hnone
      exact ⟨createdBucketRow ("all", dayTypeOf weekday) themes emotion,
        create₃ (hpre.trans hnone), rfl, rfl⟩
    · intro ex hex
      obtain ⟨cts, ces, -, -, hfind⟩ := bump₃ ex (hpre.trans hex)
      exact ⟨bumpedBucketRow ("all", dayTypeOf weekday) ex.sample_count themes emotion cts ces,
        hfind, rfl, rfl⟩

/-- Witness for the amended C3: a (morning, monday) bucket at sample
count 9 reaches count 10 and confidence `temporalConfidence 10 = 0.6`. -/
theorem temporal_confidence_after_update_witness :
    ∃ r, findBucket (update_temporal_patterns ["work"] "calm" 9 "monday"
        [⟨"morning", "monday", some ["x"], some ["calm"], 9, 4/10⟩])
        ("morning", "monday") = some r ∧
      r.sample_count = (⟨"morning", "monday", some ["x"], some ["calm"], 9,
        4/10⟩ : TemporalRow).sample_count + 1 ∧
      r.confidence = temporalConfidence ((⟨"morning", "monday", some ["x"], some ["calm"], 9,
        4/10⟩ : TemporalRow).sample_count + 1) :=
  ((temporal_confidence_after_update ["work"] "calm" 9 "monday"
      [⟨"morning", "monday", some ["x"], some ["calm"], 9, 4/10⟩]
      (by decide) (by decide)) ("morning", "monday") (by decide)).2
    ⟨"morning", "monday", some ["x"], some ["calm"], 9, 4/10⟩ rfl

/-! ## Claim C5 -/

theorem appendAbsent_nodup {base : List String} (add : List String)
    (hbase : base.Nodup) : (appendAbsent base add).Nodup := by
  induction add generalizing base with
  | nil => exact hbase
  | cons x xs ih =>
    show ((x :: xs).foldl (fun acc y => if y ∈ acc then acc else acc ++ [y]) base).Nodup
    rw [List.foldl_cons]
    by_cases hx : x ∈ base
    · rw [if_pos hx]
      exact ih hbase
    · rw [if_neg hx]
      refine ih ?_
      rw [List.nodup_append]
      exact ⟨hbase, List.nodup_singleton x, fun a ha ha' => by
        rw [List.mem_singleton] at ha'
        exact hx (ha' ▸ ha)⟩

theorem updateBucket_nodup {themes : List String} {emotion : String}
    {t t' : List TemporalRow} {key : String × String}
    (h : updateBucket themes emotion t key = some t')
    (hinv : NodupInv t) (hth : themes.Nodup) : NodupInv t' := by
  cases hfind : findBucket t key with
  | none =>
    have h' : updateBucket themes emotion t key
        = some (t ++ [createdBucketRow key themes emotion]) := by
      simp [updateBucket, hfind]
    obtain rfl : t ++ [createdBucketRow key themes emotion] = t' :=
      Option.some_inj.mp (h'.symm.trans h)
    intro r hmem
    rcases List.mem_append.mp hmem with hmem | hmem
    · exact hinv r hmem
    · simp only [List.mem_singleton] at hmem
      subst hmem
      refine ⟨?_, ?_⟩ <;> intro l hl <;>
        simp only [createdBucketRow, Option.some_inj] at hl <;> subst hl
      · exact hth
      · exact List.nodup_singleton _
  | some ex =>
    have hmem := List.mem_of_find?_eq_some hfind
    obtain ⟨hthm, hemo⟩ := hinv ex hmem
    cases hth' : ex.common_themes with
    | none => simp [updateBucket, hfind, hth'] at h
    | some cts =>
      cases hem' : ex.common_emotions with
      | none => simp [updateBucket, hfind, hth', hem'] at h
      | some ces =>
        have h' : updateBucket themes emotion t key
            = some (setBucket t key
              (bumpedBucketRow key ex.sample_count themes emotion cts ces)) := by
          simp [updateBucket, hfind, hth', hem']
        obtain rfl : setBucket t key
            (bumpedBucketRow key ex.sample_count themes emotion cts ces) = t' :=
          Option.some_inj.mp (h'.symm.trans h)
        intro r hr
        rcases List.mem_map.mp hr with ⟨a, ha, hfa⟩
        by_cases hak : a.time_block = key.1 ∧ a.weekday = key.2
        · simp only [if_pos hak] at hfa
          subst hfa
          refine ⟨?_, ?_⟩ <;> intro l hl <;>
            simp only [bumpedBucketRow, Option.some_inj] at hl <;> subst hl
          · exact appendAbsent_nodup themes (hthm cts hth')
          · by_cases hememo : emotion ∈ ces
            · simpa [hememo] using hemo ces hem'
            · simp only [if_neg hememo]
              rw [List.nodup_append]
              exact ⟨hemo ces hem', List.nodup_singleton _, fun a ha ha' => by
                rw [List.mem_singleton] at ha'
                exact hememo (ha' ▸ ha)⟩
        · simp only [if_neg hak] at hfa
          exact hfa ▸ hinv a ha

theorem foldBuckets_nodup {themes : List String} {emotion : String} :
    ∀ (keys : List (String × String)) (t t' : List TemporalRow), NodupInv t →
      themes.Nodup →
      keys.foldlM (fun acc k => updateBucket themes emotion acc k) t = some t' →
      NodupInv t' := by
  intro keys
  induction keys with
  | nil =>
    intro t t' hinv _ h
    simp only [List.foldlM_nil] at h
    exact (Option.some_inj.mp h) ▸ hinv
  | cons k ks ih =>
    intro t t' hinv hth h
    rw [List.foldlM_cons] at h
    cases hk : updateBucket themes emotion t k with
    | none => rw [hk] at h; simp at h
    | some t₁ =>
      rw [hk] at h
      exact ih t₁ t' (updateBucket_nodup hk hinv hth) hth h

theorem update_temporal_patterns_nodup {themes : List String} {emotion : String}
    {hour : Nat} {weekday : String} {t : List TemporalRow}
    (hinv : NodupInv t) (hth : themes.Nodup) :
    NodupInv (update_temporal_patterns themes emotion hour weekday t) := by
  unfold update_temporal_patterns
  cases hfold : (affectedKeys hour weekday).foldlM
      (fun acc k => updateBucket themes emotion acc k) t with
  | none => exact hinv
  | some t' => exact foldBuckets_nodup _ t t' hinv hth hfold

/-- C5 counterexample: an observation whose themes list repeats a label
(the remote theme path stores `themes[:3]` without de-duplication,
src/main.py:693-694) makes the create branch insert the list verbatim: the
fresh bucket's `common_themes` has a duplicate, so the create branch does
not append-if-absent and the uniqueness invariant fails. -/
theorem duplicate_create_breaks_nodup_counterexample :
    findBucket (update_temporal_patterns ["work", "work"] "calm" 9 "monday" [])
        ("morning", "monday")
      = some ⟨"morning", "monday", some ["work", "work"], some ["calm"], 1, 5/100⟩ ∧
    ¬ (["work", "work"] : List String).Nodup ∧
    ¬ NodupInv (update_temporal_patterns ["work", "work"] "calm" 9 "monday" []) :=
  ⟨rfl, by decide, by decide⟩

/-- C5 amended: the update branch always appends only absent labels; the
create branch copies the observation's themes verbatim, so the
no-duplicates invariant is preserved by any observation sequence provided
each observation's themes list is itself duplicate-free. -/
theorem unique_lists_invariant (obs : List TObs) (t₀ : List TemporalRow)
    (h₀ : NodupInv t₀) (hth : ∀ o ∈ obs, o.themes.Nodup) :
    NodupInv (applyTObsList obs t₀) := by
  induction obs generalizing t₀ with
  | nil => exact h₀
  | cons o os ih =>
    show NodupInv (applyTObsList os
      (update_temporal_patterns o.themes o.emotion o.hour o.weekday t₀))
    exact ih _
      (update_temporal_patterns_nodup h₀ (hth o (List.mem_cons_self o os)))
      (fun x hx => hth x (List.mem_cons_of_mem o hx))

/-- Witness for the amended C5 on a concrete observation sequence. -/
theorem unique_lists_invariant_witness :
    NodupInv (applyTObsList
      [⟨["work"], "calm", 9, "monday"⟩, ⟨["work", "health"], "tired", 14, "tuesday"⟩] []) :=
  unique_lists_invariant _ [] (by decide) (by decide)

/-! ## Claim C6 -/

theorem maxBySample_fold_mem :
    ∀ (xs : List TemporalRow) (m r : TemporalRow),
      xs.foldl (fun m r => if m.sample_count < r.sample_count then r else m) m = r →
      r = m ∨ r ∈ xs := by
  intro xs
  induction xs with
  | nil => intro m r h; exact Or.inl h.symm
  | cons x xs ih =>
    intro m r h
    rw [List.foldl_cons] at h
    by_cases hlt : m.sample_count < x.sample_count
    · rw [if_pos hlt] at h
      rcases ih x r h with hr | hr
      · exact Or.inr (hr ▸ List.mem_cons_self x xs)
      · exact Or.inr (List.mem_cons_of_mem x hr)
    · rw [if_neg hlt] at h
      rcases ih m r h with hr | hr
      · exact Or.inl hr
      · exact Or.inr (List.mem_cons_of_mem x hr)

theorem maxBySample_mem {l : List TemporalRow} {r : TemporalRow}
    (h : maxBySample l = some r) : r ∈ l := by
  cases l with
  | nil => simp [maxBySample] at h
  | cons x xs =>
    simp only [maxBySample, Option.some_inj] at h
    rcases maxBySample_fold_mem xs x r h with hr | hr
    · exact hr ▸ List.mem_cons_self x xs
    · exact List.mem_cons_of_mem x hr

theorem maxBySample_eq_none {l : List TemporalRow}
    (h : maxBySample l = none) : l = [] := by
  cases l with
  | nil => rfl
  | cons x xs => simp [maxBySample] at h

/-- C6: the temporal lookup of `get_relevant_patterns` follows the
ordered fallback — the exact (block, weekday) bucket subject to
`sample_count ≥ 5 ∧ confidence > 0.4`, else the (block, "all") aggregate
subject to `sample_count ≥ 10 ∧ confidence > 0.5`, else the
("all", day-type) aggregate under the same thresholds; in particular a
Monday-morning query with a (morning, monday) bucket of 3 samples and a
(morning, "all") bucket of 12 samples and confidence 0.6 reports the
aggregate bucket. -/
theorem temporal_fallback_precedence :
    (∀ (t : List TemporalRow) (tb wd dt : String) (r : TemporalRow),
      chooseTemporal t tb wd dt = some r →
        tier1 tb wd r = true ∨
        ((∀ x ∈ t, ¬ tier1 tb wd x = true) ∧ tier2 tb r = true) ∨
        ((∀ x ∈ t, ¬ tier1 tb wd x = true) ∧ (∀ x ∈ t, ¬ tier2 tb x = true) ∧
          tier3 dt r = true)) ∧
    chooseTemporal
      [⟨"morning", "monday", some [], some [], 3, 6/10⟩,
       ⟨"morning", "all", some ["work"], some ["calm"], 12, 6/10⟩]
      (timeBlockOfHour 9) "monday" (dayTypeOf "monday")
      = some ⟨"morning", "all", some ["work"], some ["calm"], 12, 6/10⟩ := by
  constructor
  · intro t tb wd dt r h
    unfold chooseTemporal at h
    cases h₁ : maxBySample (t.filter (tier1 tb wd)) with
    | some m =>
      rw [h₁] at h
      simp only [Option.some_inj] at h
      subst h
      exact Or.inl (List.mem_filter.mp (maxBySample_mem h₁)).2
    | none =>
      rw [h₁] at h
      have hnone₁ : ∀ x ∈ t, ¬ tier1 tb wd x = true := by
        have hfil := maxBySample_eq_none h₁
        exact fun x hx hpx => by
          have : x ∈ t.filter (tier1 tb wd) := List.mem_filter.mpr ⟨hx, hpx⟩
          rw [hfil] at this
          simp at this
      cases h₂ : t.find? (tier2 tb) with
      | some m =>
        rw [h₂] at h
        simp only [Option.some_inj] at h
        subst h
        exact Or.inr (Or.inl ⟨hnone₁, List.find?_some h₂⟩)
      | none =>
        rw [h₂] at h
        exact Or.inr (Or.inr ⟨hnone₁, List.find?_eq_none.mp h₂, List.find?_some h⟩)
  · have hfil : ([⟨"morning", "monday", some [], some [], 3, 6/10⟩,
        ⟨"morning", "all", some ["work"], some ["calm"], 12, 6/10⟩]
          : List TemporalRow).filter
        (tier1 (timeBlockOfHour 9) "monday") = [] := rfl
    have htier2 : tier2 (timeBlockOfHour 9)
        (⟨"morning", "all", some ["work"], some ["calm"], 12, 6/10⟩ : TemporalRow) = true := by
      simp only [tier2, decide_eq_true_eq]
      refine ⟨by decide, by decide, by decide, by norm_num⟩
    have htier2spec : tier2 (timeBlockOfHour 9)
        (⟨"morning", "monday", some [], some [], 3, 6/10⟩ : TemporalRow) = false := rfl
    unfold chooseTemporal
    rw [hfil]
    show (match (List.find? _ _ : Option TemporalRow) with
      | some r => some r
      | none => _) = _
    rw [List.find?_cons_of_neg _ (by rw [htier2spec]; exact Bool.false_ne_true),
      List.find?_cons_of_pos _ htier2]

/-- Witness for C6: the concrete Monday-morning scenario, with the
precedence disjunction instantiated there. -/
theorem temporal_fallback_precedence_witness :
    chooseTemporal
      [⟨"morning", "monday", some [], some [], 3, 6/10⟩,
       ⟨"morning", "all", some ["work"], some ["calm"], 12, 6/10⟩]
      (timeBlockOfHour 9) "monday" (dayTypeOf "monday")
      = some ⟨"morning", "all", some ["work"], some ["calm"], 12, 6/10⟩ ∧
    (tier1 (timeBlockOfHour 9) "monday"
        (⟨"morning", "all", some ["work"], some ["calm"], 12, 6/10⟩ : TemporalRow) = true ∨
      ((∀ x ∈ ([⟨"morning", "monday", some [], some [], 3, 6/10⟩,
          ⟨"morning", "all", some ["work"], some ["calm"], 12, 6/10⟩] : List TemporalRow),
          ¬ tier1 (timeBlockOfHour 9) "monday" x = true) ∧
        tier2 (timeBlockOfHour 9)
          (⟨"morning", "all", some ["work"], some ["calm"], 12, 6/10⟩ : TemporalRow) = true) ∨
      ((∀ x ∈ ([⟨"morning", "monday", some [], some [], 3, 6/10⟩,
          ⟨"morning", "all", some ["work"], some ["calm"], 12, 6/10⟩] : List TemporalRow),
          ¬ tier1 (timeBlockOfHour 9) "monday" x = true) ∧
        (∀ x ∈ ([⟨"morning", "monday", some [], some [], 3, 6/10⟩,
          ⟨"morning", "all", some ["work"], some ["calm"], 12, 6/10⟩] : List TemporalRow),
          ¬ tier2 (timeBlockOfHour 9) x = true) ∧
        tier3 (dayTypeOf "monday")
          (⟨"morning", "all", some ["work"], some ["calm"], 12, 6/10⟩ : TemporalRow) = true)) :=
  ⟨temporal_fallback_precedence.2,
   temporal_fallback_precedence.1 _ _ _ _ _ temporal_fallback_precedence.2⟩

/-! ## Claim C4 -/

theorem validLlmTags_sound {text : String} {tags : List String} {tg : String}
    (h : tg ∈ validLlmTags text tags) :
    tg ∈ extractHashtagWords text ∨ pyIn ("#" ++ tg) text = true := by
  have h' := (List.mem_filter.mp h).2
  exact of_decide_eq_true h'

/-- C4 counterexample: the validation check `f"#{tag}" in text` is a
substring test, so for text "feeling #tiredness" the remote tag "tired"
survives even though it is not one of the text's hashtag tokens
(which are exactly ["tiredness"]). -/
theorem tag_not_a_hashtag_token_survives_counterexample :
    finalTags "feeling #tiredness" ["tired"] = ["tired"] ∧
    "tired" ∉ extractHashtagWords "feeling #tiredness" ∧
    extractHashtagWords "feeling #tiredness" = ["tiredness"] := by
  decide

/-- C4 amended: a remote tag survives validation iff it is an extracted
hashtag word or `"#" + tag` occurs as a substring of the text (not
necessarily as a whole hashtag token); the accepted list is capped at 3;
when no proposed tag is valid the result is the raw hashtags capped at 3;
and for text "feeling #tired" with remote tags ["tired", "work"] the final
tags equal ["tired"]. -/
theorem tags_substring_validation :
    (∀ (text : String) (tags : List String) (tg : String), tg ∈ finalTags text tags →
      tg ∈ extractHashtagWords text ∨ pyIn ("#" ++ tg) text = true) ∧
    (∀ (text : String) (tags : List String), (finalTags text tags).length ≤ 3) ∧
    (∀ (text : String) (tags : List String), validLlmTags text tags = [] →
      finalTags text tags = (extractHashtagWords text).take 3) ∧
    finalTags "feeling #tired" ["tired", "work"] = ["tired"] := by
  refine ⟨?_, ?_, ?_, by decide⟩
  · intro text tags tg htg
    unfold finalTags at htg
    by_cases hval : validLlmTags text tags = []
    · rw [if_neg (fun hc => hc hval)] at htg
      exact Or.inl (List.take_subset 3 _ htg)
    · rw [if_pos hval] at htg
      exact validLlmTags_sound (List.take_subset 3 _ htg)
  · intro text tags
    unfold finalTags
    split_ifs <;> rw [List.length_take] <;> omega
  · intro text tags h
    unfold finalTags
    rw [if_neg (fun hc => hc h)]

/-- Witness for the amended C4 at the spec's own example. -/
theorem tags_substring_validation_witness :
    "tired" ∈ extractHashtagWords "feeling #tired" ∨
      pyIn ("#" ++ "tired") "feeling #tired" = true :=
  tags_substring_validation.1 "feeling #tired" ["tired", "work"] "tired" (by decide)

/-! ## Claim C9 -/

theorem dedupFirst_nodup (l : List String) : (dedupFirst l).Nodup := by
  show (appendAbsent [] l).Nodup
  exact appendAbsent_nodup l List.nodup_nil

theorem dedupFirst_fold_length (l : List String) :
    ∀ acc : List String,
      (l.foldl (fun acc a => if a ∈ acc then acc else acc ++ [a]) acc).length
        ≤ acc.length + l.length := by
  induction l with
  | nil => intro acc; simp
  | cons x xs ih =>
    intro acc
    rw [List.foldl_cons]
    by_cases hx : x ∈ acc
    · rw [if_pos hx]
      calc _ ≤ acc.length + xs.length := ih acc
        _ ≤ acc.length + (x :: xs).length := by simp [List.length_cons]
    · rw [if_neg hx]
      calc _ ≤ (acc ++ [x]).length + xs.length := ih (acc ++ [x])
        _ ≤ acc.length + (x :: xs).length := by simp [List.length_append]; omega

theorem dedupFirst_length (l : List String) : (dedupFirst l).length ≤ l.length := by
  have := dedupFirst_fold_length l []
  simpa [dedupFirst] using this

theorem dedupFirst_fold_subset (l : List String) :
    ∀ (acc : List String) (x : String),
      x ∈ l.foldl (fun acc a => if a ∈ acc then acc else acc ++ [a]) acc →
      x ∈ acc ∨ x ∈ l := by
  induction l with
  | nil => intro acc x h; exact Or.inl h
  | cons y ys ih =>
    intro acc x h
    rw [List.foldl_cons] at h
    by_cases hy : y ∈ acc
    · rw [if_pos hy] at h
      rcases ih acc x h with h' | h'
      · exact Or.inl h'
      · exact Or.inr (List.mem_cons_of_mem y h')
    · rw [if_neg hy] at h
      rcases ih (acc ++ [y]) x h with h' | h'
      · rcases List.mem_append.mp h' with h'' | h''
        · exact Or.inl h''
        · rw [List.mem_singleton] at h''
          exact Or.inr (h'' ▸ List.mem_cons_self y ys)
      · exact Or.inr (List.mem_cons_of_mem y h')

theorem dedupFirst_subset {l : List String} {x : String}
    (h : x ∈ dedupFirst l) : x ∈ l := by
  rcases dedupFirst_fold_subset l [] x h with h' | h'
  · exact absurd h' (by simp)
  · exact h'

theorem addAction_prop {acts : List String} {g : Option (List Char)} {b : Bool}
    (h : ∀ a ∈ acts, 3 < a.length) : ∀ a ∈ addAction acts g b, 3 < a.length := by
  unfold addAction
  cases g with
  | none => exact h
  | some raw =>
    show ∀ a ∈ (if cleanAction raw ≠ "" ∧ 3 < (cleanAction raw).length ∧
        (b = true → cleanAction raw ∉ acts) then acts ++ [cleanAction raw] else acts),
      3 < a.length
    split_ifs with hc
    · intro a ha
      rcases List.mem_append.mp ha with ha | ha
      · exact h a ha
      · rw [List.mem_singleton] at ha
        exact ha ▸ hc.2.1
    · exact h

theorem todoFold_prop (parts : List String) :
    ∀ acc : List String, (∀ a ∈ acc, 3 < a.length) →
      ∀ a ∈ parts.foldl (fun acc part =>
        let p := String.mk (stripWs part.toList)
        if p ≠ "" ∧ 3 < p.length ∧ p ∉ acc then acc ++ [p] else acc) acc,
      3 < a.length := by
  induction parts with
  | nil => intro acc h; exact h
  | cons part ps ih =>
    intro acc h
    rw [List.foldl_cons]
    by_cases hc : String.mk (stripWs part.toList) ≠ "" ∧
        3 < (String.mk (stripWs part.toList)).length ∧
        String.mk (stripWs part.toList) ∉ acc
    · rw [if_pos hc]
      refine ih _ (fun a ha => ?_)
      rcases List.mem_append.mp ha with ha | ha
      · exact h a ha
      · rw [List.mem_singleton] at ha
        exact ha ▸ hc.2.1
    · rw [if_neg hc]
      exact ih acc h

theorem todoActions_prop {acts : List String} {text : String}
    (h : ∀ a ∈ acts, 3 < a.length) : ∀ a ∈ todoActions acts text, 3 < a.length := by
  unfold todoActions
  split_ifs with hg
  · cases hsc : searchClause todoTrig text.toList with
    | none => exact h
    | some raw =>
      show ∀ a ∈ (if pyIn " and " (cleanAction raw) = true then
          List.foldl (fun acc part =>
            let p := String.mk (stripWs part.toList)
            if p ≠ "" ∧ 3 < p.length ∧ p ∉ acc then acc ++ [p] else acc)
            acts (pySplitOn " and " (cleanAction raw))
        else if cleanAction raw ≠ "" ∧ 3 < (cleanAction raw).length ∧
            cleanAction raw ∉ acts then acts ++ [cleanAction raw] else acts),
        3 < a.length
      split_ifs with hand hc
      · exact todoFold_prop _ acts h
      · intro a ha
        rcases List.mem_append.mp ha with ha | ha
        · exact h a ha
        · rw [List.mem_singleton] at ha
          exact ha ▸ hc.2.1
      · exact h
  · exact h

theorem shouldActs_prop (text : String) : ∀ a ∈ shouldActs text, 3 < a.length := by
  have h₁ : ∀ a ∈ needActs text, 3 < a.length := by
    unfold needActs
    split_ifs
    · exact addAction_prop (by simp)
    · simp
  have h₂ : ∀ a ∈ mustActs text, 3 < a.length := by
    unfold mustActs
    split_ifs
    · exact addAction_prop h₁
    · exact h₁
  have h₃ : ∀ a ∈ haveActs text, 3 < a.length := by
    unfold haveActs
    split_ifs
    · exact addAction_prop h₂
    · exact h₂
  have h₄ : ∀ a ∈ todoActs text, 3 < a.length := todoActions_prop h₃
  unfold shouldActs
  split_ifs
  · exact addAction_prop h₄
  · exact h₄

/-- C9: the manual action fallback (run only when the remote list is
empty) yields a duplicate-free list of at most 5 actions, each longer
than 3 characters; on "need to call Sam about the invoice." it extracts
exactly ["call Sam about the invoice"], the trailing period trimmed. -/
theorem action_fallback_rules :
    (∀ text, (fallbackActions text).Nodup ∧ (fallbackActions text).length ≤ 5 ∧
      ∀ a ∈ fallbackActions text, 3 < a.length) ∧
    fallbackActions "need to call Sam about the invoice."
      = ["call Sam about the invoice"] ∧
    actionsResult [] "need to call Sam about the invoice."
      = ["call Sam about the invoice"] := by
  refine ⟨fun text => ⟨dedupFirst_nodup _, ?_, ?_⟩, by decide, by decide⟩
  · show (dedupFirst ((shouldActs text).take 5)).length ≤ 5
    calc (dedupFirst ((shouldActs text).take 5)).length
        ≤ ((shouldActs text).take 5).length := dedupFirst_length _
      _ ≤ 5 := by rw [List.length_take]; omega
  · intro a ha
    unfold fallbackActions at ha
    exact shouldActs_prop text a (List.take_subset 5 _ (dedupFirst_subset ha))

/-- Witness for C9: the extracted action of the spec's example satisfies
the length bound. -/
theorem action_fallback_rules_witness :
    3 < ("call Sam about the invoice" : String).length :=
  (action_fallback_rules.1 "need to call Sam about the invoice.").2.2
    "call Sam about the invoice" (by decide)

/-! ## Claim C2 -/

theorem mapM_eq_none {α β : Type} (f : α → Option β) :
    ∀ (l : List α) (x : α), x ∈ l → f x = none → l.mapM f = none := by
  intro l
  induction l with
  | nil => intro x hx; simp at hx
  | cons y ys ih =>
    intro x hx hfx
    rw [List.mapM_cons]
    rcases List.mem_cons.mp hx with rfl | hx'
    · rw [hfx]
      rfl
    · cases hfy : f y with
      | none => rfl
      | some b =>
        show (ys.mapM f >>= fun xs => pure (b :: xs) : Option (List β)) = none
        rw [ih x hx' hfx]
        rfl

theorem entityParts_eq_none {rows : List EntityRow} {r : EntityRow} (hmem : r ∈ rows)
    (hbad : r.theme_correlations = none ∨ r.emotion_correlations = none) :
    entityParts rows = none := by
  apply mapM_eq_none _ rows r hmem
  rcases hbad with hb | hb
  · simp [hb]
  · cases hth : r.theme_correlations <;> simp [hth, hb]

theorem get_relevant_patterns_go_empty {etable : List EntityRow}
    {ttable : List TemporalRow} {text : String} {hour : Nat} {weekday : String}
    (hep : entityParts (keptEntities etable (capitalizedWords text)) = none) :
    get_relevant_patterns etable ttable text hour weekday = "" := by
  unfold get_relevant_patterns
  simp [hep]

/-- C2 counterexample: with a valid qualifying "Alice" record, a "Bob"
record whose theme payload is malformed, and a qualifying temporal
aggregate, the read returns "" — the per-record `json.loads` exception is
caught only by the function-wide `except` (src/main.py:356-358), so the
valid record's context and the temporal bucket are dropped too, not just
the bad record. -/
theorem malformed_record_drops_all_context_counterexample :
    get_relevant_patterns
      [⟨"Alice", 6, some [("work", 4)], some [("calm", 5)], some [], some [], 9/10, some 1⟩,
       ⟨"Bob", 7, none, some [("calm", 5)], some [], some [], 9/10, some 1⟩]
      [⟨"morning", "all", some ["work"], some ["calm"], 12, 6/10⟩]
      "Alice Bob" 9 "monday" = "" ∧
    get_relevant_patterns
      [⟨"Alice", 6, some [("work", 4)], some [("calm", 5)], some [], some [], 9/10, some 1⟩]
      [⟨"morning", "all", some ["work"], some ["calm"], 12, 6/10⟩]
      "Alice Bob" 9 "monday" ≠ "" := by
  have hdkA : decayKeep
      ⟨"Alice", 6, some [("work", 4)], some [("calm", 5)], some [], some [], 9/10, some 1⟩
      = true := by
    simp only [decayKeep, calculate_time_decay, decide_eq_true_eq]
    norm_num
  have hdkB : decayKeep
      ⟨"Bob", 7, none, some [("calm", 5)], some [], some [], 9/10, some 1⟩ = true := by
    simp only [decayKeep, calculate_time_decay, decide_eq_true_eq]
    norm_num
  constructor
  · have hkept : keptEntities
        [⟨"Alice", 6, some [("work", 4)], some [("calm", 5)], some [], some [], 9/10, some 1⟩,
         ⟨"Bob", 7, none, some [("calm", 5)], some [], some [], 9/10, some 1⟩]
        (capitalizedWords "Alice Bob")
        = [⟨"Bob", 7, none, some [("calm", 5)], some [], some [], 9/10, some 1⟩,
           ⟨"Alice", 6, some [("work", 4)], some [("calm", 5)], some [], some [], 9/10, some 1⟩] := by
      unfold keptEntities
      rw [show selectEntities
          [⟨"Alice", 6, some [("work", 4)], some [("calm", 5)], some [], some [], 9/10, some 1⟩,
           ⟨"Bob", 7, none, some [("calm", 5)], some [], some [], 9/10, some 1⟩]
          (capitalizedWords "Alice Bob")
          = [⟨"Bob", 7, none, some [("calm", 5)], some [], some [], 9/10, some 1⟩,
             ⟨"Alice", 6, some [("work", 4)], some [("calm", 5)], some [], some [], 9/10,
               some 1⟩] from rfl]
      rw [List.filter_cons_of_pos hdkB, List.filter_cons_of_pos hdkA, List.filter_nil]
      rfl
    apply get_relevant_patterns_go_empty
    rw [hkept]
    exact entityParts_eq_none (List.mem_cons_self _ _) (Or.inl rfl)
  · have hkeptA : keptEntities
        [⟨"Alice", 6, some [("work", 4)], some [("calm", 5)], some [], some [], 9/10, some 1⟩]
        (capitalizedWords "Alice Bob")
        = [⟨"Alice", 6, some [("work", 4)], some [("calm", 5)], some [], some [], 9/10, some 1⟩] := by
      unfold keptEntities
      rw [show selectEntities
          [⟨"Alice", 6, some [("work", 4)], some [("calm", 5)], some [], some [], 9/10, some 1⟩]
          (capitalizedWords "Alice Bob")
          = [⟨"Alice", 6, some [("work", 4)], some [("calm", 5)], some [], some [], 9/10,
              some 1⟩] from rfl]
      rw [List.filter_cons_of_pos hdkA, List.filter_nil]
      rfl
    have htier2 : tier2 (timeBlockOfHour 9)
        (⟨"morning", "all", some ["work"], some ["calm"], 12, 6/10⟩ : TemporalRow) = true := by
      simp only [tier2, decide_eq_true_eq]
      refine ⟨by decide, by decide, by decide, by norm_num⟩
    have hch : chooseTemporal
        [⟨"morning", "all", some ["work"], some ["calm"], 12, 6/10⟩]
        (timeBlockOfHour 9) "monday" (dayTypeOf "monday")
        = some ⟨"morning", "all", some ["work"], some ["calm"], 12, 6/10⟩ := by
      unfold chooseTemporal
      rw [show ([⟨"morning", "all", some ["work"], some ["calm"], 12, 6/10⟩]
          : List TemporalRow).filter (tier1 (timeBlockOfHour 9) "monday") = [] from rfl]
      show (match (List.find? (tier2 (timeBlockOfHour 9))
          [⟨"morning", "all", some ["work"], some ["calm"], 12, 6/10⟩] : Option TemporalRow) with
        | some r => some r
        | none => _) = _
      rw [List.find?_cons_of_pos _ htier2]
    have hval : get_relevant_patterns
        [⟨"Alice", 6, some [("work", 4)], some [("calm", 5)], some [], some [], 9/10, some 1⟩]
        [⟨"morning", "all", some ["work"], some ["calm"], 12, 6/10⟩]
        "Alice Bob" 9 "monday"
        = truncateWords 200 (String.intercalate " | "
            (["Alice: 6 mentions [work 66%] [calm 83%]"] ++
             [temporalInfo ⟨"morning", "all", some ["work"], some ["calm"], 12, 6/10⟩
               "monday" (timeBlockOfHour 9) ["work"] ["calm"]])) := by
      simp only [get_relevant_patterns]
      rw [hkeptA]
      rw [show entityParts
          [⟨"Alice", 6, some [("work", 4)], some [("calm", 5)], some [], some [], 9/10, some 1⟩]
          = some ["Alice: 6 mentions [work 66%] [calm 83%]"] from rfl]
      rw [hch]
      simp
    rw [hval]
    decide

/-- C2 amended: the read never raises (it is a total function), but a
malformed correlation payload on any record that survives the
mention-count and decay filters empties the whole result — the other
valid records and the temporal bucket are dropped with it, rather than
only the bad record being skipped. -/
theorem malformed_record_empties_whole_read (etable : List EntityRow)
    (ttable : List TemporalRow) (text : String) (hour : Nat) (weekday : String)
    (r : EntityRow) (hmem : r ∈ keptEntities etable (capitalizedWords text))
    (hbad : r.theme_correlations = none ∨ r.emotion_correlations = none) :
    get_relevant_patterns etable ttable text hour weekday = "" :=
  get_relevant_patterns_go_empty (entityParts_eq_none hmem hbad)

/-- Witness for the amended C2 at the counterexample's state. -/
theorem malformed_record_empties_whole_read_witness :
    get_relevant_patterns
      [⟨"Bob", 7, none, some [("calm", 5)], some [], some [], 9/10, some 1⟩]
      [⟨"morning", "all", some ["work"], some ["calm"], 12, 6/10⟩]
      "Alice Bob" 9 "monday" = "" :=
  malformed_record_empties_whole_read _ _ _ _ _
    ⟨"Bob", 7, none, some [("calm", 5)], some [], some [], 9/10, some 1⟩
    (by
      unfold keptEntities
      rw [show selectEntities
          [⟨"Bob", 7, none, some [("calm", 5)], some [], some [], 9/10, some 1⟩]
          (capitalizedWords "Alice Bob")
          = [⟨"Bob", 7, none, some [("calm", 5)], some [], some [], 9/10, some 1⟩] from rfl]
      rw [List.filter_cons_of_pos (by
        simp only [decayKeep, calculate_time_decay, decide_eq_true_eq]
        norm_num), List.filter_nil]
      exact List.mem_cons_self _ _)
    (Or.inl rfl)

end Spec2Proof
